import Mathlib

/-!
# AnySwap — formal model of the multi-asset weighted AMM

This file embeds the AnySwap repository's data model and operations in
Lean 4 and proves the specification's testable properties against them.

The repository ships the TypeScript clients (`AnySwap`, `Client`,
`AdminClient`), the web UI and the anchor test-suites; the on-chain Rust
program itself (the invariant solver, swap engine and liquidity engine)
is not part of the source tree.  Where a definition embeds TypeScript
that is present in the tree, its doc comment names the file; where the
on-chain engine is needed, the definition is modelled from the
specification (doc comments starting `Modelled from the spec:`), with
the concrete integer behaviour anchored to the assertions of
`src/tests/anyswap.ts`.
-/

namespace AnySwapModel

/-- One occupied asset slot of a pool: the per-asset invariant weight and
the balance of the asset's segregated Vault (the reserve). -/
structure PoolToken where
  weight : ℕ
  reserve : ℕ
deriving DecidableEq, Repr

instance : Inhabited PoolToken := ⟨⟨0, 0⟩⟩

/-- Pool state: fee rate `feeNumerator / feeDenominator` plus the ordered
list of occupied asset slots (`AnySwapPool.tokens` in the account layout). -/
structure Pool where
  feeNumerator : ℕ
  feeDenominator : ℕ
  tokens : List PoolToken
deriving DecidableEq, Repr

/-- The weighted-product term contributed by one asset slot:
`reserve ^ weight`. -/
def wTerm (t : PoolToken) : ℕ := t.reserve ^ t.weight

/-- The weighted geometric invariant `K = prod_i reserve_i ^ weight_i`
over the occupied slots, computed in exact natural-number arithmetic. -/
def wProd (ts : List PoolToken) : ℕ := (ts.map wTerm).prod

/-- The logarithmic form of the weighted invariant,
`log K = sum_i weight_i * ln (reserve_i)`, as a real number.  This is the
form the swap test of `src/tests/anyswap.ts` (line 400) documents:
`sum(weight_i * ln(vault_i)) = constant`. -/
noncomputable def logInv (ts : List PoolToken) : ℝ :=
  (ts.map (fun t => (t.weight : ℝ) * Real.log (t.reserve : ℝ))).sum

/-- The arithmetic weighted-sum quantity `sum_i reserve_i * weight_i`
used by the client-side seed-liquidity computation. -/
def sumInv (ts : List PoolToken) : ℕ :=
  (ts.map (fun t => t.reserve * t.weight)).sum

/-- Swap fee on a gross input amount, truncating:
`amount * feeNumerator / feeDenominator` (test `src/tests/anyswap.ts`
line 404: `Math.floor(swapAmount1 * 3 / 10000)`). -/
def feeOf (num den amount : ℕ) : ℕ := amount * num / den

/-- Reserve of the slot at index `i` (0 outside the list). -/
def reserveAt (ts : List PoolToken) (i : ℕ) : ℕ := (ts.getD i default).reserve

/-- Weight of the slot at index `i` (0 outside the list). -/
def weightAt (ts : List PoolToken) (i : ℕ) : ℕ := (ts.getD i default).weight

/-- Replace the reserve of slot `i`, keeping its weight. -/
def setReserve (ts : List PoolToken) (i : ℕ) (r : ℕ) : List PoolToken :=
  ts.set i ⟨weightAt ts i, r⟩

/-- Modelled from the spec: the working reserves of §4.1 `quoteSwap` after
step (1) — the input slot is credited with the net-of-fee amount.  The
net credit `amountIn - fee` is the exact vault delta asserted by
`src/tests/anyswap.ts` lines 461–462 (`vault1Increase` equals
`swapAmount1 - expectedFee1`). -/
def workingTokens (p : Pool) (iIn amountIn : ℕ) : List PoolToken :=
  setReserve p.tokens iIn
    (reserveAt p.tokens iIn + (amountIn - feeOf p.feeNumerator p.feeDenominator amountIn))

/-- Modelled from the spec: the post-swap reserves once the solved output
`out` has been debited from the output slot of the working reserves. -/
def settleTokens (p : Pool) (iIn iOut amountIn out : ℕ) : List PoolToken :=
  setReserve (workingTokens p iIn amountIn) iOut
    (reserveAt (workingTokens p iIn amountIn) iOut - out)

/-- Modelled from the spec: one committed single-input/single-output swap
of the on-chain `swap_anyswap` instruction (absent from the tree; §4.1–4.2
of the spec).  The solved output is the §4.1 step (3) solution — the exact
real solution of the logarithmic-invariant equation, rounded down — which
over the integers is exactly the greatest `out` whose settled weighted
product still reaches the pre-swap weighted product; the two product
comparisons below state that maximality.  The tolerance entries are the
§4.2 contract: `amountIn` is the gross input pulled (max-in tolerance) and
`minOut` the declared minimum for the solved output. -/
def SwapStep (p : Pool) (iIn iOut amountIn minOut out : ℕ) (p' : Pool) : Prop :=
  iIn < p.tokens.length ∧ iOut < p.tokens.length ∧ iIn ≠ iOut ∧
  minOut ≤ out ∧ out ≤ reserveAt p.tokens iOut ∧
  wProd p.tokens ≤ wProd (settleTokens p iIn iOut amountIn out) ∧
  wProd (settleTokens p iIn iOut amountIn (out + 1)) < wProd p.tokens ∧
  p' = { p with tokens := settleTokens p iIn iOut amountIn out }

instance decSwapStep (p : Pool) (iIn iOut amountIn minOut out : ℕ) (p' : Pool) :
    Decidable (SwapStep p iIn iOut amountIn minOut out p') := by
  unfold SwapStep; infer_instance

/-- Some swap: the step relation with the request data quantified away. -/
def SwapRel (p p' : Pool) : Prop :=
  ∃ iIn iOut amountIn minOut out, SwapStep p iIn iOut amountIn minOut out p'

/-- A finite sequence of committed swaps. -/
def SwapSeq : Pool → Pool → Prop := Relation.ReflTransGen SwapRel

/-- Structural pool validity from §3 of the spec: positive fee
denominator, and every occupied slot has positive weight and a funded
vault. -/
def validPool (p : Pool) : Prop :=
  0 < p.feeDenominator ∧ ∀ t ∈ p.tokens, 0 < t.weight ∧ 0 < t.reserve

instance decValidPool (p : Pool) : Decidable (validPool p) := by
  unfold validPool; infer_instance

/-! ## Liquidity engine (on-chain program absent; modelled from §4.3 / §4.1) -/

/-- Modelled from the spec: the per-asset proportional share ratios of
`quoteLiquidityDelta` — for each slot, `contributed_i * lpShareSupply /
reserve_i`, truncating. -/
def mintRatios (amounts reserves : List ℕ) (lpSupply : ℕ) : List ℕ :=
  List.zipWith (fun a r => a * lpSupply / r) amounts reserves

/-- Modelled from the spec: LP shares minted for a contribution to a pool
that already has shares — the minimum proportional ratio achieved across
assets (§4.1 `quoteLiquidityDelta`: never over-credits a disproportionate
contribution). -/
def mintedShares (amounts reserves : List ℕ) (lpSupply : ℕ) : ℕ :=
  match mintRatios amounts reserves lpSupply with
  | [] => 0
  | x :: xs => xs.foldl min x

/-- Modelled from the spec: reserves after `addLiquidity` pulls every
declared amount into its Vault. -/
def addReserves (reserves amounts : List ℕ) : List ℕ :=
  List.zipWith (· + ·) reserves amounts

/-- Modelled from the spec: `removeLiquidity` withdrawal for one Vault,
`reserve * burnShares / lpShareSupply`, rounded down (§4.3). -/
def withdrawAmount (reserve burnShares lpSupply : ℕ) : ℕ :=
  reserve * burnShares / lpSupply

/-- Modelled from the spec: the full withdrawal list of `removeLiquidity`. -/
def withdrawAmounts (reserves : List ℕ) (burnShares lpSupply : ℕ) : List ℕ :=
  reserves.map (fun r => withdrawAmount r burnShares lpSupply)

/-- Exact proportionality of a contribution to the current reserves,
as cross-multiplication over the integers. -/
def Proportional (amounts reserves : List ℕ) : Prop :=
  ∀ i < reserves.length, ∀ j < reserves.length,
    amounts.getD i 0 * reserves.getD j 0 = amounts.getD j 0 * reserves.getD i 0

instance decProportional (amounts reserves : List ℕ) :
    Decidable (Proportional amounts reserves) := by
  unfold Proportional; infer_instance

/-! ## Governance and client library embeddings -/

/-- The §7 error taxonomy (the members the claims exercise). -/
inductive AnySwapError where
  | invalidParameter
  | unknownAsset
  | toleranceViolated
  | nonEmptyVault
deriving DecidableEq, Repr

/-- `Client.calculateRequiredWSOLLiquidity` of the client library
(`src/unnamed/part_007`, lines 231–254): the seed reserve required when
registering a new asset into a funded pool is
`base / weight` with `base = sum_i (vaultBalance_i * weight_i)` —
an arithmetic weighted-sum rule.  The same computation appears inline in
`src/tests/anyswap.ts` lines 643–649. -/
def calculateRequiredWSOLLiquidity (tokens : List PoolToken) (weight : ℕ) : ℕ :=
  sumInv tokens / weight

/-- The seeding rule the spec's §4.1 `quoteSeedLiquidity` prescribes,
stated as the consistency predicate a seed must satisfy.  Modelled from
the spec: the seed is "derived from the same invariant family used for
swaps" — the weighted geometric product — so, exactly as the code's
arithmetic rule makes the new slot's sum-term `seed * weight` reproduce
the pool's weighted sum, the product-family rule makes the new slot's
product-term `seed ^ weight` reproduce the pool's weighted product. -/
def ProductFamilySeed (tokens : List PoolToken) (weight seed : ℕ) : Prop :=
  seed ^ weight = wProd tokens

instance decProductFamilySeed (tokens : List PoolToken) (weight seed : ℕ) :
    Decidable (ProductFamilySeed tokens weight seed) := by
  unfold ProductFamilySeed; infer_instance

/-- Modelled from the spec: the on-chain `addTokenToPool` instruction
(absent from the tree; §4.4 `registerAsset` and the §8 scenario).  A pool
whose Vaults are all empty registers the asset with no seed
(`src/tests/anyswap.ts` lines 166–218 register three assets passing only
a weight); a pool holding reserves rejects a registration that omits the
seed amount with `InvalidParameter`, mutating nothing. -/
def addTokenToPool (p : Pool) (weight : ℕ) (seed : Option ℕ) :
    Except AnySwapError Pool :=
  if p.tokens.all (fun t => t.reserve == 0) then
    Except.ok { p with tokens := p.tokens ++ [⟨weight, seed.getD 0⟩] }
  else
    match seed with
    | none => Except.error AnySwapError.invalidParameter
    | some s => Except.ok { p with tokens := p.tokens ++ [⟨weight, s⟩] }

/-- The instruction argument a `modifyTokenWeight` builder passes: the
two client snapshots disagree — one passes a single scalar weight, the
other a whole array of weights. -/
inductive WeightArg where
  | scalar (newWeight : ℕ)
  | batch (newWeights : List ℕ)
deriving DecidableEq, Repr

/-- One built `modifyTokenWeight` call, keeping the two snapshots'
shapes apart: the instruction argument (scalar or array), the mint bound
as a named account of the accounts struct (if any), and the mints
attached as remaining accounts. -/
structure WeightMutationCall where
  arg : WeightArg
  namedMint : Option ℕ
  remainingMints : List ℕ
deriving DecidableEq, Repr

/-- `AnySwap.modifyTokenWeight` of the bundled client
(`src/unnamed/part_005`, lines 357–373): the batched form — it passes the
caller's whole `newWeights` array as the instruction argument, names no
mint in the accounts struct (only `pool` and `admin`), and attaches one
remaining account per mint. -/
def anySwap_modifyTokenWeight (newWeights mints : List ℕ) : WeightMutationCall :=
  { arg := WeightArg.batch newWeights, namedMint := none, remainingMints := mints }

/-- `AdminClient.modifyTokenWeight` of the client library
(`src/unnamed/part_006`, lines 258–276): the single-asset form — it
passes one scalar `newWeight` as the instruction argument and binds the
one `mint` as a named account (`pool`, `mint`, `admin`), with no
remaining accounts.  The test-suite (`src/tests/anyswap.ts` lines
469–487) invokes the same shape, `modifyTokenWeight(new BN(40))` with a
named `mint`, once per asset. -/
def adminClient_modifyTokenWeight (mint newWeight : ℕ) : WeightMutationCall :=
  { arg := WeightArg.scalar newWeight, namedMint := some mint, remainingMints := [] }

/-! ## Web UI swap request validation (`src/doc/src/components/instructions/Swap.tsx`) -/

/-- The role a pool token is given in the swap form ('input' | 'output'
| 'none' in `Swap.tsx`). -/
inductive TokenRole where
  | inlet
  | outlet
  | idle
deriving DecidableEq, Repr

/-- One row of the swap form: the token's mint, the chosen role, and the
entered amount (in smallest units; an empty field is 0). -/
structure TokenSwapItem where
  mint : ℕ
  role : TokenRole
  amount : ℕ
deriving DecidableEq, Repr

/-- `inputTokens` of `Swap.tsx` `handleSwap` (line 87): the rows marked
as input with a positive amount. -/
def inputTokens (tokens : List TokenSwapItem) : List TokenSwapItem :=
  tokens.filter (fun t => t.role == TokenRole.inlet && 0 < t.amount)

/-- `outputTokens` of `Swap.tsx` `handleSwap` (line 88). -/
def outputTokens (tokens : List TokenSwapItem) : List TokenSwapItem :=
  tokens.filter (fun t => t.role == TokenRole.outlet && 0 < t.amount)

/-- `handleSwap` of `Swap.tsx` (lines 81–94): if either filtered list is
empty the handler reports an error and returns *before* building any
transaction (`none`); otherwise it submits the request built from the two
lists. -/
def handleSwap (tokens : List TokenSwapItem) :
    Option (List TokenSwapItem × List TokenSwapItem) :=
  if inputTokens tokens = [] ∨ outputTokens tokens = [] then none
  else some (inputTokens tokens, outputTokens tokens)

/-! ## `AnySwap.swap` compute-budget plan (`src/unnamed/part_005`, lines 277–336) -/

/-- One entry of the `intos` list `AnySwap.swap` builds: amount, vault,
user token account, and the input/output flag. -/
structure SwapInto where
  amount : ℕ
  vault : ℕ
  user : ℕ
  isIn : Bool
deriving DecidableEq, Repr

/-- The `intos` list of `AnySwap.swap`: all inlets (flag `true`) followed
by all outlets (flag `false`). -/
def swapIntos (inlets outlets : List (ℕ × ℕ × ℕ)) : List SwapInto :=
  inlets.map (fun x => ⟨x.1, x.2.1, x.2.2, true⟩) ++
    outlets.map (fun x => ⟨x.1, x.2.1, x.2.2, false⟩)

/-- The compute-unit-limit selection of `AnySwap.swap`
(`src/unnamed/part_005`, lines 316–323): `400_000` for exactly two
participants, `400_000 + 200_000 * n` for up to six, and otherwise the
client throws `"Too many tokens to swap"` before any transaction is
built or sent. -/
def swapCuPlan (inlets outlets : List (ℕ × ℕ × ℕ)) : Except String ℕ :=
  if (swapIntos inlets outlets).length = 2 then Except.ok 400000
  else if (swapIntos inlets outlets).length ≤ 6 then
    Except.ok (400000 + 200000 * (swapIntos inlets outlets).length)
  else Except.error "Too many tokens to swap"

/-! ## Vault PDA derivations -/

/-- The byte seed `"vault"` used by `getVault` in `src/app/src/utils.ts`
lines 35–45 and `AnySwap.getVault` in `src/unnamed/part_005` lines
96–102. -/
def vaultSeedTag : List ℕ := [118, 97, 117, 108, 116]

/-- The byte seed `"anyswap_vault"` used by the 250-token performance
test (`src/unnamed/part_001`, lines 96–99). -/
def anyswapVaultSeedTag : List ℕ :=
  [97, 110, 121, 115, 119, 97, 112, 95, 118, 97, 117, 108, 116]

/-- The program-derived-address input of the client library's `getVault`:
the seed list `["vault", pool, mint]` fed to
`PublicKey.findProgramAddressSync`. -/
def getVaultSeeds (pool mint : List ℕ) : List (List ℕ) :=
  [vaultSeedTag, pool, mint]

/-- The program-derived-address input of the 250-token performance test's
vault derivation: `["anyswap_vault", pool, mint]`. -/
def perfTestVaultSeeds (pool mint : List ℕ) : List (List ℕ) :=
  [anyswapVaultSeedTag, pool, mint]

/-! ## Concrete pool states used to instantiate the theorems -/

/-- A two-asset pool with equal weights, reserves 2 and 2, and the
nonzero fee rate `1 / 10000`. -/
def poolEx : Pool := ⟨1, 10000, [⟨1, 2⟩, ⟨1, 2⟩]⟩

/-- `poolEx` after swapping gross input 2 of asset 0 for asset 1: the fee
`floor(2 * 1 / 10000)` is 0, the working input reserve is 4, and the
solved output is exactly 1 (the integer solve is exact, so the weighted
product is unchanged: `4 * 1 = 2 * 2`). -/
def poolEx' : Pool := ⟨1, 10000, [⟨1, 4⟩, ⟨1, 1⟩]⟩

/-- The §8 scenario pool: asset X with weight 20 and reserve 10000,
asset Y with weight 40 and reserve 20000, fee `3 / 10000`. -/
def poolScenario : Pool := ⟨3, 10000, [⟨20, 10000⟩, ⟨40, 20000⟩]⟩

/-- The §8 scenario pool after swapping gross input 10000 of X for Y:
fee 3, net credit 9997, and solved output 5856 (the greatest payout with
`19997 ^ 20 * (20000 - out) ^ 40 ≥ 10000 ^ 20 * 20000 ^ 40`). -/
def poolScenario' : Pool := ⟨3, 10000, [⟨20, 19997⟩, ⟨40, 14144⟩]⟩

/-- A funded two-asset slot list used to compare the two seeding rules:
weights 1 and 1, reserves 2 and 8. -/
def seedPoolTokens : List PoolToken := [⟨1, 2⟩, ⟨1, 8⟩]

/-! ## List access lemmas -/

theorem getD_set_self {α : Type} (l : List α) (i : ℕ) (a d : α) (h : i < l.length) :
    (l.set i a).getD i d = a := by
  induction l generalizing i with
  | nil => simp at h
  | cons x xs ih =>
    cases i with
    | zero => rfl
    | succ n => exact ih n (by simpa using h)

theorem getD_set_ne {α : Type} (l : List α) (i j : ℕ) (a d : α) (h : i ≠ j) :
    (l.set i a).getD j d = l.getD j d := by
  induction l generalizing i j with
  | nil => simp
  | cons x xs ih =>
    cases i with
    | zero =>
      cases j with
      | zero => exact absurd rfl h
      | succ n => rfl
    | succ m =>
      cases j with
      | zero => rfl
      | succ n => exact ih m n (by omega)

theorem getD_mem {α : Type} (l : List α) (i : ℕ) (d : α) (h : i < l.length) :
    l.getD i d ∈ l := by
  induction l generalizing i with
  | nil => simp at h
  | cons x xs ih =>
    cases i with
    | zero => exact List.mem_cons_self x xs
    | succ n => exact List.mem_cons_of_mem x (ih n (by simpa using h))

/-! ## Weighted-product and logarithmic-invariant lemmas -/

theorem wProd_nil : wProd [] = 1 := rfl

theorem wProd_cons (t : PoolToken) (ts : List PoolToken) :
    wProd (t :: ts) = wTerm t * wProd ts := by
  simp [wProd]

theorem wProd_pos (ts : List PoolToken) (h : ∀ t ∈ ts, 0 < t.reserve) :
    0 < wProd ts := by
  induction ts with
  | nil => exact Nat.one_pos
  | cons t ts ih =>
    rw [wProd_cons]
    exact Nat.mul_pos (pow_pos (h t (List.mem_cons_self t ts)) t.weight)
      (ih (fun u hu => h u (List.mem_cons_of_mem t hu)))

theorem reserve_pos_of_wProd_pos (ts : List PoolToken)
    (hw : ∀ t ∈ ts, 0 < t.weight) (h : 0 < wProd ts) :
    ∀ t ∈ ts, 0 < t.reserve := by
  induction ts with
  | nil => simp
  | cons t ts ih =>
    rw [wProd_cons] at h
    intro u hu
    rcases List.mem_cons.mp hu with hu | hu
    · subst hu
      have ht : 0 < wTerm u := by
        rcases Nat.eq_zero_or_pos (wTerm u) with h0 | h0
        · rw [h0] at h; simp at h
        · exact h0
      have hwu : u.weight ≠ 0 :=
        Nat.pos_iff_ne_zero.mp (hw u (List.mem_cons_self u ts))
      by_contra hr
      have : u.reserve = 0 := by omega
      rw [wTerm, this, zero_pow hwu] at ht
      exact absurd ht (lt_irrefl 0)
    · have hpos : 0 < wProd ts := by
        rcases Nat.eq_zero_or_pos (wProd ts) with h0 | h0
        · rw [h0] at h; simp at h
        · exact h0
      exact ih (fun v hv => hw v (List.mem_cons_of_mem t hv)) hpos u hu

theorem wProd_set (ts : List PoolToken) (i : ℕ) (x : PoolToken) (h : i < ts.length) :
    wProd (ts.set i x) * wTerm (ts.getD i default) = wProd ts * wTerm x := by
  induction ts generalizing i with
  | nil => simp at h
  | cons t ts ih =>
    cases i with
    | zero =>
      show wProd (x :: ts) * wTerm t = wProd (t :: ts) * wTerm x
      rw [wProd_cons, wProd_cons]; ring
    | succ n =>
      show wProd (t :: ts.set n x) * wTerm (ts.getD n default) = wProd (t :: ts) * wTerm x
      rw [wProd_cons, wProd_cons, mul_assoc, ih n (by simpa using h), mul_assoc]

theorem logInv_nil : logInv [] = 0 := by simp [logInv]

theorem logInv_cons (t : PoolToken) (ts : List PoolToken) :
    logInv (t :: ts) = (t.weight : ℝ) * Real.log (t.reserve : ℝ) + logInv ts := by
  simp [logInv]

theorem logInv_eq_log_wProd (ts : List PoolToken) (h : ∀ t ∈ ts, 0 < t.reserve) :
    logInv ts = Real.log (wProd ts : ℝ) := by
  induction ts with
  | nil => simp [logInv_nil, wProd_nil]
  | cons t ts ih =>
    have hr : 0 < t.reserve := h t (List.mem_cons_self t ts)
    have hts : ∀ u ∈ ts, 0 < u.reserve := fun u hu => h u (List.mem_cons_of_mem t hu)
    have hterm : (0 : ℝ) < ((wTerm t : ℕ) : ℝ) := by
      have : 0 < wTerm t := pow_pos hr t.weight
      exact_mod_cast this
    have hprod : (0 : ℝ) < ((wProd ts : ℕ) : ℝ) := by
      have : 0 < wProd ts := wProd_pos ts hts
      exact_mod_cast this
    rw [logInv_cons, wProd_cons, ih hts]
    push_cast
    rw [Real.log_mul (by positivity) (by exact_mod_cast Nat.pos_iff_ne_zero.mp (wProd_pos ts hts)), wTerm]
    push_cast
    rw [Real.log_pow]

/-! ## Swap-step structure lemmas -/

theorem length_setReserve (ts : List PoolToken) (i r : ℕ) :
    (setReserve ts i r).length = ts.length := by
  simp [setReserve]

theorem weight_pos_setReserve (ts : List PoolToken) (i r : ℕ)
    (hw : ∀ t ∈ ts, 0 < t.weight) (h : i < ts.length) :
    ∀ t ∈ setReserve ts i r, 0 < t.weight := by
  intro t ht
  rcases List.mem_or_eq_of_mem_set ht with ht | ht
  · exact hw t ht
  · subst ht
    exact hw (ts.getD i default) (getD_mem ts i default h)

theorem reserveAt_setReserve_self (ts : List PoolToken) (i r : ℕ) (h : i < ts.length) :
    reserveAt (setReserve ts i r) i = r := by
  rw [reserveAt, setReserve, getD_set_self ts i _ default h]

theorem reserveAt_setReserve_ne (ts : List PoolToken) (i j r : ℕ) (h : i ≠ j) :
    reserveAt (setReserve ts i r) j = reserveAt ts j := by
  rw [reserveAt, setReserve, getD_set_ne ts i j _ default h, reserveAt]

theorem getD_setReserve_ne (ts : List PoolToken) (i j r : ℕ) (h : i ≠ j) :
    (setReserve ts i r).getD j default = ts.getD j default := by
  rw [setReserve, getD_set_ne ts i j _ default h]

/-- Each committed swap step preserves pool validity and never decreases
the logarithmic weighted invariant. -/
theorem swapStep_valid_logInv {p p' : Pool} {iIn iOut amountIn minOut out : ℕ}
    (hv : validPool p) (hs : SwapStep p iIn iOut amountIn minOut out p') :
    validPool p' ∧ logInv p.tokens ≤ logInv p'.tokens := by
  obtain ⟨h1, h2, h3, h4, h5, h6, h7, h8⟩ := hs
  obtain ⟨hden, hslots⟩ := hv
  have hwts : ∀ t ∈ p.tokens, 0 < t.weight := fun t ht => (hslots t ht).1
  have hres : ∀ t ∈ p.tokens, 0 < t.reserve := fun t ht => (hslots t ht).2
  have hw1 : ∀ t ∈ workingTokens p iIn amountIn, 0 < t.weight :=
    weight_pos_setReserve p.tokens iIn _ hwts h1
  have hlen1 : (workingTokens p iIn amountIn).length = p.tokens.length :=
    length_setReserve p.tokens iIn _
  have hw2 : ∀ t ∈ settleTokens p iIn iOut amountIn out, 0 < t.weight :=
    weight_pos_setReserve (workingTokens p iIn amountIn) iOut _ hw1 (hlen1 ▸ h2)
  have hpre : 0 < wProd p.tokens := wProd_pos p.tokens hres
  have hpost : 0 < wProd (settleTokens p iIn iOut amountIn out) := lt_of_lt_of_le hpre h6
  have hres2 : ∀ t ∈ settleTokens p iIn iOut amountIn out, 0 < t.reserve :=
    reserve_pos_of_wProd_pos _ hw2 hpost
  subst h8
  refine ⟨⟨hden, fun t ht => ⟨hw2 t ht, hres2 t ht⟩⟩, ?_⟩
  rw [logInv_eq_log_wProd p.tokens hres, logInv_eq_log_wProd _ hres2]
  exact (Real.log_le_log_iff (by exact_mod_cast hpre) (by exact_mod_cast hpost)).mpr
    (by exact_mod_cast h6)

/-- A sequence of committed swaps preserves validity and never decreases
the logarithmic weighted invariant. -/
theorem swapSeq_valid_logInv {p p' : Pool} (hseq : SwapSeq p p') (hv : validPool p) :
    validPool p' ∧ logInv p.tokens ≤ logInv p'.tokens := by
  induction hseq with
  | refl => exact ⟨hv, le_refl _⟩
  | tail _ hstep ih =>
    obtain ⟨hvb, hlog⟩ := ih
    obtain ⟨iIn, iOut, amountIn, minOut, out, hs⟩ := hstep
    obtain ⟨hvc, hlog2⟩ := swapStep_valid_logInv hvb hs
    exact ⟨hvc, le_trans hlog hlog2⟩

/-! ## C1 — invariant monotonicity across swap sequences -/

/-- C1 (counterexample to the strictness clause): on `poolEx`
(fee `1/10000 > 0`) the swap of gross input 2 of asset 0 for asset 1 pays
fee 0 — so the input is *not* entirely absorbed by the fee — and settles
the *nonzero* output 1, yet the post-swap logarithmic invariant exactly
equals the pre-swap invariant: the integer output solve is exact
(`4 * 1 = 2 * 2`), so the inequality is not strict. -/
theorem C1_counterexample :
    SwapStep poolEx 0 1 2 0 1 poolEx' ∧
    2 - feeOf poolEx.feeNumerator poolEx.feeDenominator 2 ≠ 0 ∧
    (1 : ℕ) ≠ 0 ∧
    logInv poolEx'.tokens = logInv poolEx.tokens := by
  refine ⟨by decide, by decide, by decide, ?_⟩
  rw [logInv_eq_log_wProd poolEx'.tokens (by decide), logInv_eq_log_wProd poolEx.tokens (by decide)]
  norm_num [wProd, wTerm, poolEx, poolEx']

/-- C1 (amended): for any sequence of committed swaps on a valid pool
with `feeNumerator > 0`, the logarithmic weighted invariant computed from
the post-swap reserves is greater than or equal to the invariant computed
from the pre-swap reserves.  (The original strictness clause fails: the
inequality can be an equality even when the fee does not absorb the whole
input and the output is nonzero — see the counterexample.) -/
theorem C1_invariant_monotone (p p' : Pool)
    (_hfee : 0 < p.feeNumerator) (hv : validPool p) (hseq : SwapSeq p p') :
    logInv p.tokens ≤ logInv p'.tokens :=
  (swapSeq_valid_logInv hseq hv).2

/-- C1 (witness): the monotonicity theorem applied to the concrete
one-swap sequence from `poolEx` to `poolEx'`. -/
theorem C1_witness : logInv poolEx.tokens ≤ logInv poolEx'.tokens :=
  C1_invariant_monotone poolEx poolEx' (by decide) (by decide)
    (Relation.ReflTransGen.single ⟨0, 1, 2, 0, 1, by decide⟩)

/-! ## C2 — fee retention on the input Vault -/

/-- C2: for every committed swap with gross input `amountIn`, the input
Vault's balance increases by exactly
`amountIn - floor(amountIn * feeNumerator / feeDenominator)`; the output
Vault decreases by exactly the settled output and every other Vault is
untouched, so no part of the fee amount leaves the pool. -/
theorem C2_fee_retention (p p' : Pool) (iIn iOut amountIn minOut out : ℕ)
    (hs : SwapStep p iIn iOut amountIn minOut out p') :
    reserveAt p'.tokens iIn
        = reserveAt p.tokens iIn
          + (amountIn - amountIn * p.feeNumerator / p.feeDenominator) ∧
    reserveAt p'.tokens iOut = reserveAt p.tokens iOut - out ∧
    ∀ j, j ≠ iIn → j ≠ iOut → reserveAt p'.tokens j = reserveAt p.tokens j := by
  obtain ⟨h1, h2, h3, h4, h5, h6, h7, h8⟩ := hs
  subst h8
  have hlen1 : (workingTokens p iIn amountIn).length = p.tokens.length :=
    length_setReserve p.tokens iIn _
  refine ⟨?_, ?_, ?_⟩
  · show reserveAt (settleTokens p iIn iOut amountIn out) iIn = _
    rw [settleTokens, reserveAt_setReserve_ne _ iOut iIn _ (Ne.symm h3),
      workingTokens, reserveAt_setReserve_self _ iIn _ h1, feeOf]
  · show reserveAt (settleTokens p iIn iOut amountIn out) iOut = _
    rw [settleTokens, reserveAt_setReserve_self _ iOut _ (hlen1 ▸ h2),
      workingTokens, reserveAt_setReserve_ne _ iIn iOut _ h3]
  · intro j hj1 hj2
    show reserveAt (settleTokens p iIn iOut amountIn out) j = _
    rw [settleTokens, reserveAt_setReserve_ne _ iOut j _ (Ne.symm hj2),
      workingTokens, reserveAt_setReserve_ne _ iIn j _ (Ne.symm hj1)]

/-- C2 (witness): the fee-retention theorem applied to the §8 scenario
swap: X's vault increases by `10000 - floor(10000 * 3 / 10000) = 9997`. -/
theorem C2_witness :
    reserveAt poolScenario'.tokens 0
      = reserveAt poolScenario.tokens 0
        + (10000 - 10000 * poolScenario.feeNumerator / poolScenario.feeDenominator) :=
  (C2_fee_retention poolScenario poolScenario' 0 1 10000 0 5856 (by decide)).1

/-! ## C3 — seed-liquidity rule versus the product-invariant family -/

/-- C3 (counterexample): on the funded slots `seedPoolTokens` with new
weight 1, `calculateRequiredWSOLLiquidity` returns 10 — the arithmetic
weighted-sum rule `(2*1 + 8*1) / 1` — which violates the
product-invariant-family consistency predicate even though that family
admits the exact integer seed 16 here (`16 ^ 1 = 2 ^ 1 * 8 ^ 1`). -/
theorem C3_counterexample :
    calculateRequiredWSOLLiquidity seedPoolTokens 1 = 10 ∧
    ¬ ProductFamilySeed seedPoolTokens 1
        (calculateRequiredWSOLLiquidity seedPoolTokens 1) ∧
    ProductFamilySeed seedPoolTokens 1 16 := by
  decide

/-- C3 (amended): the required seed reserve computed when registering a
new asset into a funded pool follows the *arithmetic weighted-sum* rule —
it is exactly the floor of `(sum_i reserve_i * weight_i) / newWeight` —
rather than being derived from the weighted-product invariant family used
by the swap path. -/
theorem C3_seed_is_weighted_sum (tokens : List PoolToken) (weight : ℕ)
    (hw : 0 < weight) :
    calculateRequiredWSOLLiquidity tokens weight * weight ≤ sumInv tokens ∧
    sumInv tokens < (calculateRequiredWSOLLiquidity tokens weight + 1) * weight := by
  constructor
  · exact Nat.div_mul_le_self (sumInv tokens) weight
  · have hdm := Nat.div_add_mod (sumInv tokens) weight
    have hmod := Nat.mod_lt (sumInv tokens) hw
    have he : (calculateRequiredWSOLLiquidity tokens weight + 1) * weight
        = weight * (sumInv tokens / weight) + weight := by
      rw [calculateRequiredWSOLLiquidity]; ring
    rw [he]; linarith

/-- C3 (witness): the floor characterisation at `seedPoolTokens` with
new weight 3. -/
theorem C3_witness :
    calculateRequiredWSOLLiquidity seedPoolTokens 3 * 3 ≤ sumInv seedPoolTokens ∧
    sumInv seedPoolTokens < (calculateRequiredWSOLLiquidity seedPoolTokens 3 + 1) * 3 :=
  C3_seed_is_weighted_sum seedPoolTokens 3 (by decide)

/-! ## C4 — the §8 scenario swap -/

/-- C4 (counterexample to the fee-in-vault clause): in the §8 scenario no
committed swap of gross input 10000 leaves X's vault holding the full
10000 (which retaining the fee of 3 inside the vault would require): the
settled input reserve is always `10000 + 9997`, never `10000 + 10000`. -/
theorem C4_counterexample :
    ¬ ∃ (p' : Pool) (out : ℕ), SwapStep poolScenario 0 1 10000 0 out p' ∧
        reserveAt p'.tokens 0 = 10000 + 10000 := by
  rintro ⟨p', out, hs, hres⟩
  obtain ⟨h1, h2, h3, h4, h5, h6, h7, h8⟩ := hs
  rw [h8] at hres
  rw [show ({ poolScenario with tokens := settleTokens poolScenario 0 1 10000 out } : Pool).tokens
      = settleTokens poolScenario 0 1 10000 out from rfl] at hres
  rw [settleTokens, reserveAt_setReserve_ne _ 1 0 _ (by decide),
    workingTokens, reserveAt_setReserve_self _ 0 _ (by decide)] at hres
  exact absurd hres (by decide)

/-- C4 (amended): the §8 scenario swap (gross input 10000 of X for Y,
declared minimum output 0) commits with solved output 5856; the fee
`floor(10000 * 3 / 10000) = 3` is charged by crediting X's vault with
only `10000 - 3 = 9997` (the fee is withheld from the vault credit rather
than retained inside the vault), and the post-swap logarithmic invariant
is greater than or equal to the pre-swap invariant. -/
theorem C4_scenario_swap :
    SwapStep poolScenario 0 1 10000 0 5856 poolScenario' ∧
    feeOf poolScenario.feeNumerator poolScenario.feeDenominator 10000 = 3 ∧
    reserveAt poolScenario'.tokens 0 = reserveAt poolScenario.tokens 0 + (10000 - 3) ∧
    logInv poolScenario.tokens ≤ logInv poolScenario'.tokens := by
  refine ⟨by decide, by decide, by decide, ?_⟩
  exact (swapStep_valid_logInv (by decide : validPool poolScenario)
    (by decide : SwapStep poolScenario 0 1 10000 0 5856 poolScenario')).2

/-! ## C5 — liquidity round-trip -/

theorem foldl_min_eq (x : ℕ) (xs : List ℕ) (h : ∀ y ∈ xs, y = x) :
    xs.foldl min x = x := by
  induction xs with
  | nil => rfl
  | cons z zs ih =>
    rw [List.foldl_cons, h z (List.mem_cons_self z zs), min_self]
    exact ih (fun y hy => h y (List.mem_cons_of_mem z hy))

/-- Floors of equal rationals: if `a / c = b / d` as exact fractions then
the truncated quotients `a * S / c` and `b * S / d` agree. -/
theorem div_eq_div_of_cross (a b c d S : ℕ) (hc : 0 < c) (hd : 0 < d)
    (h : a * d = b * c) : a * S / c = b * S / d := by
  have h1 : a * S / c = d * (a * S) / (d * c) := (Nat.mul_div_mul_left (a * S) c hd).symm
  have h2 : b * S / d = c * (b * S) / (c * d) := (Nat.mul_div_mul_left (b * S) d hc).symm
  rw [h1, h2, show d * (a * S) = (a * d) * S by ring, h,
    show (b * c) * S = c * (b * S) by ring, Nat.mul_comm d c]

theorem mem_mintRatios (amounts reserves : List ℕ) (S y : ℕ)
    (hy : y ∈ mintRatios amounts reserves S) :
    ∃ j, j < amounts.length ∧ j < reserves.length ∧
      y = amounts.getD j 0 * S / reserves.getD j 0 := by
  induction amounts generalizing reserves with
  | nil => simp [mintRatios] at hy
  | cons a as ih =>
    cases reserves with
    | nil => simp [mintRatios] at hy
    | cons r rs =>
      rcases List.mem_cons.mp hy with h | h
      · exact ⟨0, by simp, by simp, h⟩
      · obtain ⟨j, hj1, hj2, hj3⟩ := ih rs h
        exact ⟨j + 1, by simp [List.length_cons]; omega, by simp [List.length_cons]; omega, hj3⟩

theorem mintRatios_ne_nil (amounts reserves : List ℕ)
    (S : ℕ) (hlen : amounts.length = reserves.length) (hne : reserves ≠ []) :
    mintRatios amounts reserves S ≠ [] := by
  cases amounts with
  | nil =>
    cases reserves with
    | nil => exact absurd rfl hne
    | cons r rs => simp at hlen
  | cons a as =>
    cases reserves with
    | nil => exact absurd rfl hne
    | cons r rs => simp [mintRatios]

theorem head_mem_of_eq_cons {α : Type} (l : List α) (x : α) (xs : List α)
    (h : l = x :: xs) : x ∈ l := by
  rw [h]; exact List.mem_cons_self x xs

/-- Under an exactly proportional contribution, the minted share count
equals each asset's truncated proportional ratio. -/
theorem mintedShares_eq (amounts reserves : List ℕ) (S : ℕ)
    (hlen : amounts.length = reserves.length)
    (hpos : ∀ r ∈ reserves, 0 < r)
    (hprop : Proportional amounts reserves)
    (i : ℕ) (hi : i < reserves.length) :
    mintedShares amounts reserves S = amounts.getD i 0 * S / reserves.getD i 0 := by
  have hall : ∀ y ∈ mintRatios amounts reserves S,
      y = amounts.getD i 0 * S / reserves.getD i 0 := by
    intro y hy
    obtain ⟨j, hj1, hj2, hj3⟩ := mem_mintRatios amounts reserves S y hy
    rw [hj3]
    exact div_eq_div_of_cross (amounts.getD j 0) (amounts.getD i 0)
      (reserves.getD j 0) (reserves.getD i 0) S
      (hpos _ (getD_mem reserves j 0 hj2))
      (hpos _ (getD_mem reserves i 0 hi)) (hprop j hj2 i hi)
  have hne : reserves ≠ [] := by
    intro h0; rw [h0] at hi; simp at hi
  cases hm : mintRatios amounts reserves S with
  | nil => exact absurd hm (mintRatios_ne_nil amounts reserves S hlen hne)
  | cons x xs =>
    have hx : x = amounts.getD i 0 * S / reserves.getD i 0 :=
      hall x (head_mem_of_eq_cons _ x xs hm)
    have hxs : ∀ y ∈ xs, y = amounts.getD i 0 * S / reserves.getD i 0 := by
      intro y hy
      exact hall y (by rw [hm]; exact List.mem_cons_of_mem x hy)
    rw [mintedShares, hm]
    show xs.foldl min x = amounts.getD i 0 * S / reserves.getD i 0
    rw [hx]
    exact foldl_min_eq _ xs hxs

theorem withdrawAmounts_getD (reserves : List ℕ) (burn S i : ℕ)
    (h : i < reserves.length) :
    (withdrawAmounts reserves burn S).getD i 0 = reserves.getD i 0 * burn / S := by
  induction reserves generalizing i with
  | nil => simp at h
  | cons r rs ih =>
    cases i with
    | zero => rfl
    | succ n => exact ih n (by simpa using h)

theorem addReserves_getD (reserves amounts : List ℕ) (i : ℕ)
    (h1 : i < reserves.length) (h2 : i < amounts.length) :
    (addReserves reserves amounts).getD i 0 = reserves.getD i 0 + amounts.getD i 0 := by
  induction reserves generalizing amounts i with
  | nil => simp at h1
  | cons r rs ih =>
    cases amounts with
    | nil => simp at h2
    | cons a as =>
      cases i with
      | zero => rfl
      | succ n => exact ih as n (by simpa using h1) (by simpa using h2)

theorem length_addReserves (reserves amounts : List ℕ) :
    (addReserves reserves amounts).length = min reserves.length amounts.length := by
  simp [addReserves]

/-- The core rounding bound: minting `m = a * S / r` shares for an exact
proportional contribution `a` against reserve `r` and supply `S`, then
burning them, withdraws between `a - 1` and `a`, provided
`r ≤ S + m`. -/
theorem withdraw_bound (r a S : ℕ) (hS : 0 < S) (hr : 0 < r)
    (hb : r ≤ S + a * S / r) :
    (r + a) * (a * S / r) / (S + a * S / r) ≤ a ∧
    a ≤ (r + a) * (a * S / r) / (S + a * S / r) + 1 := by
  obtain ⟨m, hm⟩ : ∃ m, a * S / r = m := ⟨a * S / r, rfl⟩
  rw [hm] at hb ⊢
  have hdm : r * m + a * S % r = a * S := by
    rw [← hm]; exact Nat.div_add_mod (a * S) r
  have hmod : a * S % r < r := Nat.mod_lt (a * S) hr
  have hrm : r * m ≤ a * S := Nat.le.intro hdm
  have hrm2 : a * S < r * m + r := by
    rw [← hdm]; exact Nat.add_lt_add_left hmod (r * m)
  have hSm : 0 < S + m := by omega
  constructor
  · have hlt : (r + a) * m < (a + 1) * (S + m) := by
      have e1 : (r + a) * m = r * m + a * m := by ring
      have e2 : (a + 1) * (S + m) = a * S + a * m + (S + m) := by ring
      rw [e1, e2]
      calc r * m + a * m ≤ a * S + a * m := Nat.add_le_add_right hrm (a * m)
      _ < a * S + a * m + (S + m) := Nat.lt_add_of_pos_right hSm
    exact Nat.lt_succ_iff.mp ((Nat.div_lt_iff_lt_mul hSm).mpr hlt)
  · have h1 : a * (S + m) ≤ (r + a) * m + (S + m) := by
      have e3 : a * (S + m) = a * S + a * m := by ring
      have e4 : (r + a) * m + (S + m) = r * m + a * m + (S + m) := by ring
      rw [e3, e4]
      refine le_of_lt ?_
      calc a * S + a * m < r * m + r + a * m := Nat.add_lt_add_right hrm2 (a * m)
      _ = r * m + a * m + r := by ring
      _ ≤ r * m + a * m + (S + m) := Nat.add_le_add_left hb (r * m + a * m)
    have h2 : a ≤ ((r + a) * m + (S + m)) / (S + m) :=
      (Nat.le_div_iff_mul_le hSm).mpr h1
    rwa [Nat.add_div_right _ hSm] at h2

/-- C5 (amended): adding liquidity with contributions exactly
proportional to the current reserves and immediately removing the minted
share count returns, for each asset, an amount that is at most the
original contribution and short of it by at most 1 unit — provided every
reserve is at most `lpShareSupply + mintedShares` (the claim's bound
fails without that proviso; see the counterexample). -/
theorem C5_roundtrip_within_one (amounts reserves : List ℕ) (S : ℕ)
    (hS : 0 < S)
    (hlen : amounts.length = reserves.length)
    (hpos : ∀ r ∈ reserves, 0 < r)
    (hprop : Proportional amounts reserves)
    (hbound : ∀ r ∈ reserves, r ≤ S + mintedShares amounts reserves S) :
    ∀ i, i < reserves.length →
      (withdrawAmounts (addReserves reserves amounts)
          (mintedShares amounts reserves S)
          (S + mintedShares amounts reserves S)).getD i 0 ≤ amounts.getD i 0 ∧
      amounts.getD i 0 ≤ (withdrawAmounts (addReserves reserves amounts)
          (mintedShares amounts reserves S)
          (S + mintedShares amounts reserves S)).getD i 0 + 1 := by
  intro i hi
  have hmi : mintedShares amounts reserves S
      = amounts.getD i 0 * S / reserves.getD i 0 :=
    mintedShares_eq amounts reserves S hlen hpos hprop i hi
  have hilen : i < (addReserves reserves amounts).length := by
    rw [length_addReserves]; omega
  have hwd : (withdrawAmounts (addReserves reserves amounts)
      (mintedShares amounts reserves S) (S + mintedShares amounts reserves S)).getD i 0
      = (reserves.getD i 0 + amounts.getD i 0) * (mintedShares amounts reserves S)
        / (S + mintedShares amounts reserves S) := by
    rw [withdrawAmounts_getD _ _ _ i hilen,
      addReserves_getD reserves amounts i hi (by omega)]
  have hri : 0 < reserves.getD i 0 := hpos _ (getD_mem reserves i 0 hi)
  have hbi : reserves.getD i 0 ≤ S + mintedShares amounts reserves S :=
    hbound _ (getD_mem reserves i 0 hi)
  rw [hwd, hmi]
  rw [hmi] at hbi
  exact withdraw_bound (reserves.getD i 0) (amounts.getD i 0) S hS hri hbi

/-- C5 (counterexample): with reserves `[100, 100]`, share supply 1 and
the exactly proportional contribution `[150, 150]`, one share is minted;
burning it immediately withdraws `[125, 125]`, which is 25 units short of
the contribution — far more than the claimed 1-unit rounding bound. -/
theorem C5_counterexample :
    Proportional [150, 150] [100, 100] ∧
    0 < (1 : ℕ) ∧
    mintedShares [150, 150] [100, 100] 1 = 1 ∧
    withdrawAmounts (addReserves [100, 100] [150, 150]) 1 (1 + 1) = [125, 125] ∧
    ¬ (150 - 125 ≤ (1 : ℕ)) := by
  decide

/-- C5 (witness): the amended round-trip theorem applied to reserves
`[100, 100]`, supply 200 and the proportional contribution `[50, 50]`. -/
theorem C5_witness :
    (withdrawAmounts (addReserves [100, 100] [50, 50])
        (mintedShares [50, 50] [100, 100] 200)
        (200 + mintedShares [50, 50] [100, 100] 200)).getD 0 0
      ≤ ([50, 50] : List ℕ).getD 0 0 ∧
    ([50, 50] : List ℕ).getD 0 0
      ≤ (withdrawAmounts (addReserves [100, 100] [50, 50])
        (mintedShares [50, 50] [100, 100] 200)
        (200 + mintedShares [50, 50] [100, 100] 200)).getD 0 0 + 1 :=
  C5_roundtrip_within_one [50, 50] [100, 100] 200 (by decide) (by decide)
    (by decide) (by decide) (by decide) 0 (by decide)

/-! ## C6 — registration seed requirement -/

/-- C6: registering a new asset on a pool whose Vaults are all empty
succeeds with no seed amount; on a pool holding nonzero reserves,
omitting the seed amount fails with `InvalidParameter` and registers
nothing. -/
theorem C6_registration_seed_guard (p : Pool) (w : ℕ) :
    ((∀ t ∈ p.tokens, t.reserve = 0) →
      addTokenToPool p w none
        = Except.ok { p with tokens := p.tokens ++ [⟨w, 0⟩] }) ∧
    ((∃ t ∈ p.tokens, t.reserve ≠ 0) →
      addTokenToPool p w none = Except.error AnySwapError.invalidParameter) := by
  constructor
  · intro h
    have hc : p.tokens.all (fun t => t.reserve == 0) = true := by
      rw [List.all_eq_true]
      intro t ht
      exact beq_iff_eq.mpr (h t ht)
    simp only [addTokenToPool, hc, if_true]
    rfl
  · intro h
    obtain ⟨t, ht, hne⟩ := h
    have hc : ¬ p.tokens.all (fun t => t.reserve == 0) = true := by
      rw [List.all_eq_true]
      intro hall
      exact hne (beq_iff_eq.mp (hall t ht))
    rw [addTokenToPool, if_neg hc]

/-- C6 (witness): both branches at concrete pools — a two-asset pool with
empty vaults accepts a seedless registration, while the funded §8
scenario pool rejects it with `InvalidParameter`. -/
theorem C6_witness :
    addTokenToPool ⟨3, 10000, [⟨20, 0⟩, ⟨40, 0⟩]⟩ 40 none
      = Except.ok ⟨3, 10000, [⟨20, 0⟩, ⟨40, 0⟩, ⟨40, 0⟩]⟩ ∧
    addTokenToPool poolScenario 30 none
      = Except.error AnySwapError.invalidParameter :=
  ⟨(C6_registration_seed_guard ⟨3, 10000, [⟨20, 0⟩, ⟨40, 0⟩]⟩ 40).1 (by decide),
   (C6_registration_seed_guard poolScenario 30).2
     ⟨⟨20, 10000⟩, by decide, by decide⟩⟩

/-! ## C7 — weight-mutation call shapes -/

/-- C7 (counterexample): the codebase does expose a special-cased
single-asset weight-mutation form — `AdminClient.modifyTokenWeight`
builds its call from exactly one mint and one scalar weight (here mint 7,
weight 40, with the mint bound as a named account), and that call is not
even the singleton instance of the batched `AnySwap.modifyTokenWeight`
call (scalar versus array argument, named versus remaining mint
account): the two signatures are inconsistent. -/
theorem C7_counterexample :
    (adminClient_modifyTokenWeight 7 40).arg = WeightArg.scalar 40 ∧
    (adminClient_modifyTokenWeight 7 40).namedMint = some 7 ∧
    (anySwap_modifyTokenWeight [40, 10, 5] [7, 8, 9]).arg = WeightArg.batch [40, 10, 5] ∧
    adminClient_modifyTokenWeight 7 40 ≠ anySwap_modifyTokenWeight [40] [7] := by
  decide

/-- C7 (amended): the weight-mutation capability appears in two
*inconsistent* call shapes: the bundled client's batched form passes a
`newWeights` array with the mints as remaining accounts, while the
`AdminClient` exposes a special-cased single-asset form passing one
scalar `newWeight` with the mint as a named account — and no instance of
one builder ever coincides with an instance of the other. -/
theorem C7_weight_mutation_forms :
    (∀ ws ms : List ℕ,
      (anySwap_modifyTokenWeight ws ms).arg = WeightArg.batch ws ∧
      (anySwap_modifyTokenWeight ws ms).namedMint = none ∧
      (anySwap_modifyTokenWeight ws ms).remainingMints = ms) ∧
    (∀ mint w : ℕ,
      (adminClient_modifyTokenWeight mint w).arg = WeightArg.scalar w ∧
      (adminClient_modifyTokenWeight mint w).namedMint = some mint ∧
      (adminClient_modifyTokenWeight mint w).remainingMints = []) ∧
    (∀ mint w : ℕ, ∀ ws ms : List ℕ,
      adminClient_modifyTokenWeight mint w ≠ anySwap_modifyTokenWeight ws ms) := by
  refine ⟨fun ws ms => ⟨rfl, rfl, rfl⟩, fun mint w => ⟨rfl, rfl, rfl⟩, ?_⟩
  intro mint w ws ms h
  have harg : WeightArg.scalar w = WeightArg.batch ws := congrArg WeightMutationCall.arg h
  exact WeightArg.noConfusion harg

/-! ## C8 — swap request validation in the UI -/

/-- C8: whenever `handleSwap` submits a request, the request has at least
one input entry and at least one output entry, and (for a pool whose
token mints are pairwise distinct, as the Pool invariant guarantees) no
mint appears in both the input and the output role; a request with zero
input entries or zero output entries is rejected before any transaction
is built. -/
theorem C8_swap_request_validation (tokens : List TokenSwapItem)
    (ins outs : List TokenSwapItem)
    (h : handleSwap tokens = some (ins, outs))
    (huniq : tokens.Pairwise (fun s t => s.mint ≠ t.mint)) :
    ins ≠ [] ∧ outs ≠ [] ∧
    ∀ m : ℕ, ¬ (m ∈ ins.map TokenSwapItem.mint ∧ m ∈ outs.map TokenSwapItem.mint) := by
  rw [handleSwap] at h
  by_cases hc : inputTokens tokens = [] ∨ outputTokens tokens = []
  · rw [if_pos hc] at h
    exact absurd h (by simp)
  · rw [if_neg hc] at h
    push_neg at hc
    simp only [Option.some.injEq, Prod.mk.injEq] at h
    obtain ⟨hin, hout⟩ := h
    subst hin
    subst hout
    refine ⟨hc.1, hc.2, ?_⟩
    rintro m ⟨hm1, hm2⟩
    obtain ⟨t1, ht1, hmt1⟩ := List.mem_map.mp hm1
    obtain ⟨t2, ht2, hmt2⟩ := List.mem_map.mp hm2
    have ht1f := List.mem_filter.mp ht1
    have ht2f := List.mem_filter.mp ht2
    have hrole1 : t1.role = TokenRole.inlet := by
      have := ht1f.2
      simp only [Bool.and_eq_true, beq_iff_eq, decide_eq_true_eq] at this
      exact this.1
    have hrole2 : t2.role = TokenRole.outlet := by
      have := ht2f.2
      simp only [Bool.and_eq_true, beq_iff_eq, decide_eq_true_eq] at this
      exact this.1
    have hne : t1 ≠ t2 := by
      intro he
      rw [he, hrole2] at hrole1
      exact absurd hrole1 (by decide)
    have hsym : Symmetric (fun s t : TokenSwapItem => s.mint ≠ t.mint) :=
      fun x y hxy he => hxy he.symm
    exact List.Pairwise.forall hsym huniq ht1f.1 ht2f.1 hne (hmt1.trans hmt2.symm)

/-- C8 (witness): the validation theorem applied to a concrete submitted
request with one input row and one output row. -/
theorem C8_witness :
    ([⟨0, TokenRole.inlet, 5⟩] : List TokenSwapItem) ≠ [] ∧
    ([⟨1, TokenRole.outlet, 3⟩] : List TokenSwapItem) ≠ [] :=
  ⟨(C8_swap_request_validation
      [⟨0, TokenRole.inlet, 5⟩, ⟨1, TokenRole.outlet, 3⟩]
      [⟨0, TokenRole.inlet, 5⟩] [⟨1, TokenRole.outlet, 3⟩]
      (by decide) (by decide)).1,
   (C8_swap_request_validation
      [⟨0, TokenRole.inlet, 5⟩, ⟨1, TokenRole.outlet, 3⟩]
      [⟨0, TokenRole.inlet, 5⟩] [⟨1, TokenRole.outlet, 3⟩]
      (by decide) (by decide)).2.1⟩

/-! ## C9 — participant cap and compute-unit limits of `AnySwap.swap` -/

/-- C9: if the total participant count (inlets plus outlets) exceeds 6,
`AnySwap.swap` throws `"Too many tokens to swap"` before any transaction
is built or sent; otherwise the compute-unit limit attached to the
transaction is 400000 for exactly 2 participants and
`400000 + 200000 * n` for 3 to 6 participants. -/
theorem C9_swap_cu_limits (inlets outlets : List (ℕ × ℕ × ℕ)) :
    (6 < inlets.length + outlets.length →
      swapCuPlan inlets outlets = Except.error "Too many tokens to swap") ∧
    (inlets.length + outlets.length = 2 →
      swapCuPlan inlets outlets = Except.ok 400000) ∧
    (3 ≤ inlets.length + outlets.length → inlets.length + outlets.length ≤ 6 →
      swapCuPlan inlets outlets
        = Except.ok (400000 + 200000 * (inlets.length + outlets.length))) := by
  have hlen : (swapIntos inlets outlets).length = inlets.length + outlets.length := by
    simp [swapIntos]
  refine ⟨?_, ?_, ?_⟩
  · intro h
    rw [swapCuPlan, hlen, if_neg (by omega), if_neg (by omega)]
  · intro h
    rw [swapCuPlan, hlen, if_pos h]
  · intro h3 h6
    rw [swapCuPlan, hlen, if_neg (by omega), if_pos h6]

/-- C9 (witness): the three branches at concrete participant lists of
sizes 7, 2 and 4. -/
theorem C9_witness :
    swapCuPlan [(1, 1, 1), (2, 2, 2), (3, 3, 3), (4, 4, 4)]
        [(5, 5, 5), (6, 6, 6), (7, 7, 7)]
      = Except.error "Too many tokens to swap" ∧
    swapCuPlan [(1, 1, 1)] [(2, 2, 2)] = Except.ok 400000 ∧
    swapCuPlan [(1, 1, 1), (2, 2, 2)] [(3, 3, 3), (4, 4, 4)]
      = Except.ok (400000 + 200000 * 4) :=
  ⟨(C9_swap_cu_limits [(1, 1, 1), (2, 2, 2), (3, 3, 3), (4, 4, 4)]
      [(5, 5, 5), (6, 6, 6), (7, 7, 7)]).1 (by decide),
   (C9_swap_cu_limits [(1, 1, 1)] [(2, 2, 2)]).2.1 (by decide),
   (C9_swap_cu_limits [(1, 1, 1), (2, 2, 2)] [(3, 3, 3), (4, 4, 4)]).2.2
      (by decide) (by decide)⟩

/-! ## C10 — the two vault PDA derivations -/

/-- C10 (counterexample): at the concrete pool bytes `[0]` and mint bytes
`[1]`, the derivation input of the client library's `getVault` differs
from the derivation input of the 250-token performance test. -/
theorem C10_counterexample :
    getVaultSeeds [0] [1] ≠ perfTestVaultSeeds [0] [1] := by
  decide

/-- C10 (amended): the two vault derivations in the codebase are *not*
equivalent: for every pool and mint, `getVault` derives from the seed
prefix `"vault"` while the 250-token performance test derives from
`"anyswap_vault"`, so the two program-derived-address inputs always
differ. -/
theorem C10_vault_derivations_differ (pool mint : List ℕ) :
    getVaultSeeds pool mint ≠ perfTestVaultSeeds pool mint := by
  intro h
  have h1 : vaultSeedTag = anyswapVaultSeedTag := by
    injection h with h1 _
  exact absurd h1 (by decide)

end AnySwapModel
